import Mathlib

/-!
Verification of the GEMM canonicalization / rewrite pipeline of
`pytensor/tensor/blas.py` (plus the driver loop of `GemmOptimizer.apply`).

The graph data model (`Variable` / `Apply` / `Op` / types) is embedded
shallowly: a `Var` is either a graph input (`leaf`), a constant (`cst`), or
the single output of an `Apply` node (`node`), carrying the `Op`, the ordered
input list and the inferred tensor type.  Reference identity (`is` in Python)
is modelled by the `id` field: distinct allocations in a source graph carry
distinct ids, so structural equality of `Var` coincides with Python reference
identity; nodes synthesized during rewriting carry id 0.
-/

/-- Element dtypes that appear in the BLAS pipeline.  The `rank` ordering
below models the numpy upcast lattice restricted to these dtypes. -/
inductive Dtype where
  | bool
  | int64
  | float16
  | float32
  | float64
  | complex64
  | complex128
  deriving DecidableEq

/-- Position of a dtype in the (linearised) promotion order. -/
def Dtype.rank : Dtype → Nat
  | .bool => 0
  | .int64 => 1
  | .float16 => 2
  | .float32 => 3
  | .float64 => 4
  | .complex64 => 5
  | .complex128 => 6

/-- Modelled from the spec: `pytensor.scalar.upcast` (not under `src/`), the
dtype-promotion used by `_gemm_from_factored_list`; on the dtypes exercised
here it returns the larger dtype in the promotion order. -/
def upcast (a b : Dtype) : Dtype :=
  if a.rank ≤ b.rank then b else a

/-- The dtype set accepted by `_gemm_canonicalize`
(`float16/float32/float64/complex64/complex128`). -/
def isFloatComplexDtype : Dtype → Bool
  | .float16 | .float32 | .float64 | .complex64 | .complex128 => true
  | _ => false

/-- `dtype.startswith("float")`, as used by `_is_real_matrix`/`_is_real_vector`. -/
def isRealFloatDtype : Dtype → Bool
  | .float16 | .float32 | .float64 => true
  | _ => false

/-- A tensor type: `isTensor` models `isinstance(t, DenseTensorType)`; `shape`
is the static shape hint (`None` = unknown size, `some 1` = broadcastable). -/
structure Ty where
  isTensor : Bool
  dtype : Dtype
  shape : List (Option Nat)
  deriving DecidableEq

/-- `type.ndim`. -/
def Ty.ndim (t : Ty) : Nat := t.shape.length

/-- `type.broadcastable`: which static dims equal 1. -/
def Ty.broadcastable (t : Ty) : List Bool := t.shape.map (fun s => s == some 1)

/-- Modelled from the spec: `TensorType.in_same_class` (not under `src/`):
two tensor types are interchangeable for a rewrite when they have the same
element dtype and the same broadcastable pattern (hence the same rank). -/
def inSameClass (a b : Ty) : Bool :=
  a.dtype == b.dtype && a.broadcastable == b.broadcastable

/-- The operators the canonicalizer inspects.  `other` stands for any Op it
does not recognise (an opaque producer). -/
inductive Op where
  | add
  | sub
  | neg
  | mul
  | dot22
  | gemm (inplace : Bool)
  | dimshuffle (newOrder : List (Option Nat))
  | cast (dtype : Dtype)
  | other (tag : Nat)
  deriving DecidableEq

mutual
/-- A graph variable: a graph input (`leaf`), a constant (`cst`), or the
output of an `Apply` of `op` to `inputs` with inferred type `ty` (`node`).
The `id` models Python object identity. -/
inductive Var where
  | leaf (id : Nat) (ty : Ty)
  | cst (val : ℚ) (ty : Ty)
  | node (id : Nat) (op : Op) (inputs : VList) (ty : Ty)
/-- An ordered list of input variables of an `Apply`. -/
inductive VList where
  | nil
  | cons (head : Var) (tail : VList)
end

mutual
/-- Structural (= reference) equality test on variables. -/
def Var.beq : Var → Var → Bool
  | .leaf i t, .leaf i' t' => i == i' && t == t'
  | .cst q t, .cst q' t' => q == q' && t == t'
  | .node i o l t, .node i' o' l' t' =>
      i == i' && o == o' && VList.beq l l' && t == t'
  | _, _ => false
/-- Structural equality test on input lists. -/
def VList.beq : VList → VList → Bool
  | .nil, .nil => true
  | .cons h t, .cons h' t' => Var.beq h h' && VList.beq t t'
  | _, _ => false
end

mutual
/-- `Var.beq` decides propositional equality. -/
def Var.beqIff : ∀ a b : Var, Var.beq a b = true ↔ a = b
  | .leaf i t, .leaf i' t' => by
      simp [Var.beq]
  | .leaf _ _, .cst _ _ => by simp [Var.beq]
  | .leaf _ _, .node _ _ _ _ => by simp [Var.beq]
  | .cst _ _, .leaf _ _ => by simp [Var.beq]
  | .cst q t, .cst q' t' => by simp [Var.beq]
  | .cst _ _, .node _ _ _ _ => by simp [Var.beq]
  | .node _ _ _ _, .leaf _ _ => by simp [Var.beq]
  | .node _ _ _ _, .cst _ _ => by simp [Var.beq]
  | .node i o l t, .node i' o' l' t' => by
      simp only [Var.beq, Bool.and_eq_true, beq_iff_eq, Var.node.injEq]
      rw [VList.beqIff l l']
      tauto
/-- `VList.beq` decides propositional equality. -/
def VList.beqIff : ∀ a b : VList, VList.beq a b = true ↔ a = b
  | .nil, .nil => by simp [VList.beq]
  | .nil, .cons _ _ => by simp [VList.beq]
  | .cons _ _, .nil => by simp [VList.beq]
  | .cons h t, .cons h' t' => by
      simp only [VList.beq, Bool.and_eq_true, VList.cons.injEq]
      rw [Var.beqIff h h', VList.beqIff t t']
end

instance : DecidableEq Var := fun a b =>
  decidable_of_iff (Var.beq a b = true) (Var.beqIff a b)

instance : DecidableEq VList := fun a b =>
  decidable_of_iff (VList.beq a b = true) (VList.beqIff a b)

/-- Convert an input list to a `List` (for reuse of list combinators). -/
def VList.toList : VList → List Var
  | .nil => []
  | .cons h t => h :: VList.toList t

/-- Build an input list from a `List`. -/
def VList.ofList : List Var → VList
  | [] => .nil
  | h :: t => .cons h (VList.ofList t)

/-- The type of a variable. -/
def Var.ty : Var → Ty
  | .leaf _ t => t
  | .cst _ t => t
  | .node _ _ _ t => t

/-- Whether the variable's owner `Apply` has one of the four arithmetic
Elemwise ops the canonicalizer recurses through. -/
def Var.ownerIsArith : Var → Bool
  | .node _ .add _ _ => true
  | .node _ .sub _ _ => true
  | .node _ .neg _ _ => true
  | .node _ .mul _ _ => true
  | _ => false

/-- Right-aligned broadcast of two static shapes (Elemwise output shape):
a size-1 dim broadcasts against the other dim; unknown/unequal dims give
an unknown output dim. -/
def broadcastShapes (a b : List (Option Nat)) : List (Option Nat) :=
  (go a.reverse b.reverse).reverse
where
  go : List (Option Nat) → List (Option Nat) → List (Option Nat)
    | [], ys => ys
    | xs, [] => xs
    | x :: xs, y :: ys =>
      (if x = some 1 then y else if y = some 1 then x
       else if x = y then x else none) :: go xs ys

/-- Output type of a binary Elemwise arithmetic `Apply`. -/
def elemTy2 (a b : Ty) : Ty :=
  ⟨true, upcast a.dtype b.dtype, broadcastShapes a.shape b.shape⟩

/-- `-v` (an Elemwise `neg` Apply); same type as the operand. -/
def mkNeg (v : Var) : Var := .node 0 .neg (.cons v .nil) v.ty

/-- `a * b` (a binary Elemwise `mul` Apply). -/
def mkMul2 (a b : Var) : Var :=
  .node 0 .mul (.cons a (.cons b .nil)) (elemTy2 a.ty b.ty)

/-- `a + b` (a binary Elemwise `add` Apply). -/
def mkAdd2 (a b : Var) : Var :=
  .node 0 .add (.cons a (.cons b .nil)) (elemTy2 a.ty b.ty)

/-- Fold the Elemwise output type over an input list. -/
def elemTyN : List Var → Ty
  | [] => ⟨true, .float64, []⟩
  | v :: vs => vs.foldl (fun t w => elemTy2 t w.ty) v.ty

/-- `mul(*vs)` (an n-ary Elemwise `mul` Apply). -/
def mkMulN (vs : List Var) : Var := .node 0 .mul (VList.ofList vs) (elemTyN vs)

/-- `add(*vs)` (an n-ary Elemwise `add` Apply). -/
def mkAddN (vs : List Var) : Var := .node 0 .add (VList.ofList vs) (elemTyN vs)

/-- `v.dimshuffle(order)`; `none` entries are `'x'` (insert a broadcastable
dim), `some k` picks input dim `k`. -/
def mkDimshuffle (ord : List (Option Nat)) (v : Var) : Var :=
  .node 0 (.dimshuffle ord) (.cons v .nil)
    ⟨true, v.ty.dtype, ord.map (fun o => match o with
      | none => some 1
      | some k => v.ty.shape.getD k none)⟩

/-- `v.dimshuffle()`: drop all (broadcastable) dims, producing a 0-d tensor. -/
def mkDimshuffle0 (v : Var) : Var := mkDimshuffle [] v

/-- `at.as_tensor_variable` applied to a Python float: a 0-d `floatX`
(= float64) constant. -/
def asTensorFloat (q : ℚ) : Var := .cst q ⟨true, .float64, []⟩

/-- Modelled from the spec: `at.cast` (not under `src/`): casting to the
variable's own dtype returns the variable unchanged, otherwise it wraps the
variable in a `cast` Apply. -/
def castVar (v : Var) (d : Dtype) : Var :=
  if v.ty.dtype = d then v else .node 0 (.cast d) (.cons v .nil) ⟨true, d, v.ty.shape⟩

mutual
/-- Modelled from the spec: `pytensor.graph.basic.view_roots` (not under
`src/`): the conservative aliasing test follows `view_map` declarations
(`DimShuffle` views its input) down to root variables. -/
def viewRoots : Var → List Var
  | .node _ (.dimshuffle _) l _ => viewRootsHead l
  | v => [v]
/-- View roots of the first input of a view `Apply`. -/
def viewRootsHead : VList → List Var
  | .nil => []
  | .cons h _ => viewRoots h
end

/-- Whether two view-root sets intersect (`zr.intersection(xr)` nonempty). -/
def hasCommon (a b : List Var) : Bool := a.any (fun v => b.contains v)

mutual
/-- `while i.owner and isinstance(i.owner.op, DimShuffle): i = i.owner.inputs[0]`
(the scalar-factor unwrapping loop of `_gemm_canonicalize`). -/
def stripDimShuffle : Var → Var
  | .node i (.dimshuffle ord) l t => stripDimShuffleHead (.node i (.dimshuffle ord) l t) l
  | v => v
/-- Step into the first input of a `DimShuffle`; the first argument is the
node itself, returned when the input list is empty. -/
def stripDimShuffleHead : Var → VList → Var
  | _, .cons h _ => stripDimShuffle h
  | v, .nil => v
end

/-- The slice of `FunctionGraph` state the canonicalizer consults:
`len(fgraph.clients[r])`, the number of client entries of a variable. -/
structure FGraph where
  clients : Var → Nat

/-- A scale in the canonicalized `(signed_scale, term)` list: either a Python
number (`num`) or a symbolic graph variable (`sym`).  Python compares a
`Variable` to the literal `1` by object identity, so only `num` scales can
test equal to `1` or `-1`. -/
inductive Scale where
  | num (q : ℚ)
  | sym (v : Var)
  deriving DecidableEq

/-- The graph variable denoting a scale (`as_tensor_variable` for numbers). -/
def Scale.toVar : Scale → Var
  | .num q => asTensorFloat q
  | .sym v => v

/-- `-scale`: numeric negation for numbers, a `neg` Apply for variables. -/
def Scale.negS : Scale → Scale
  | .num q => .num (-q)
  | .sym v => .sym (mkNeg v)

/-- `s + t` (used when `_factor_canonicalized` merges duplicate terms):
numeric addition for numbers, an `add` Apply otherwise. -/
def Scale.addS : Scale → Scale → Scale
  | .num a, .num b => .num (a + b)
  | a, b => .sym (mkAdd2 a.toVar b.toVar)

/-- `scale == 1` under Python semantics (False for any `Variable`). -/
def Scale.isOne : Scale → Bool
  | .num q => q == 1
  | .sym _ => false

/-- `scale == -1` under Python semantics (False for any `Variable`). -/
def Scale.isNegOne : Scale → Bool
  | .num q => q == -1
  | .sym _ => false

/-- The dtype of the scale's graph variable. -/
def Scale.dtype : Scale → Dtype := fun s => s.toVar.ty.dtype

/-- `scaled(thing)` from `_gemm_canonicalize`: scale 1 returns the term,
scale -1 negates it unless the term is bool-typed, anything else multiplies. -/
def scaled (scale : Scale) (thing : Var) : Var :=
  if scale.isOne then thing
  else if scale.isNegOne && !(thing.ty.dtype == .bool) then mkNeg thing
  else mkMul2 scale.toVar thing

/-- An entry of the canonicalized term list: `_gemm_canonicalize` appends
either a bare (already scaled) variable or a `(scale, term)` tuple;
`assertFail` marks the (unreachable) failure of the source's `assert` that
a `mul` cannot mix vector and matrix factors. -/
inductive Item where
  | bare (v : Var)
  | pair (s : Scale) (m : Var)
  | assertFail
  deriving DecidableEq

/-- `all(s == 1 for s in i.type.shape)`: every static dim is 1. -/
def allOneShape (t : Ty) : Bool := t.shape.all (fun s => s == some 1)

/-- `_is_real_vector`. -/
def isRealVector (v : Var) : Bool :=
  isRealFloatDtype v.ty.dtype && v.ty.ndim == 1 && !(v.ty.shape.getD 0 none == some 1)

/-- `_is_real_matrix`. -/
def isRealMatrix (v : Var) : Bool :=
  isRealFloatDtype v.ty.dtype && v.ty.ndim == 2
    && !(v.ty.shape.getD 0 none == some 1) && !(v.ty.shape.getD 1 none == some 1)

/-- Classify the inputs of a `mul` Apply into scalar factors (unwrapped and
dimshuffled to 0-d), real vectors and real matrices, in input order;
`none` models the source's early `rval.append((scale, r)); return` when some
input fits no category. -/
def classifyMulInputs : VList → Option (List Var × List Var × List Var)
  | .nil => some ([], [], [])
  | .cons i rest =>
    if allOneShape i.ty then
      let istr := stripDimShuffle i
      let s := if istr.ty.ndim > 0 then mkDimshuffle0 istr else istr
      match classifyMulInputs rest with
      | some (ss, vs, ms) => some (s :: ss, vs, ms)
      | none => none
    else if isRealVector i then
      match classifyMulInputs rest with
      | some (ss, vs, ms) => some (ss, i :: vs, ms)
      | none => none
    else if isRealMatrix i then
      match classifyMulInputs rest with
      | some (ss, vs, ms) => some (ss, vs, i :: ms)
      | none => none
    else none

/-- The classification predicate under which an input lands in the `matrices`
bucket of `classifyMulInputs`. -/
def isMatrixFactor (i : Var) : Bool :=
  !allOneShape i.ty && !isRealVector i && isRealMatrix i

/-- The classification predicate under which an input lands in the `vectors`
bucket of `classifyMulInputs`. -/
def isVectorFactor (i : Var) : Bool :=
  !allOneShape i.ty && isRealVector i

/-- Fold the scalar factors of a `mul` into one scale:
no scalars keeps `scale`; one scalar gives `scaled(scalars[0])`; several give
`mul(scaled(scalars[0]), *scalars[1:])`. -/
def mulFoldScale (scale : Scale) : List Var → Scale
  | [] => scale
  | [s0] => .sym (scaled scale s0)
  | s0 :: srest => .sym (mkMulN (scaled scale s0 :: srest))

mutual
/-- `_gemm_canonicalize(fgraph, r, scale, rval, maxclients)`: decompose `r`
into the list of items it appends to `rval`.  A non-tensor variable
contributes nothing (`return None`); a tensor that is not float/complex of
rank 1 or 2 is appended as a bare `scaled(r)`; a variable with too many
clients, or matching no rule, is appended as a `(scale, r)` pair; `sub`,
`add`, `neg` recurse with the corresponding signs, and a `mul` with exactly
one matrix (resp. vector) factor folds its scalar factors into the scale and
recurses on that factor. -/
def canonV (fg : FGraph) (r : Var) (scale : Scale) (maxclients : Nat) : List Item :=
  if ¬ r.ty.isTensor = true then []
  else if ¬ ((r.ty.ndim = 1 ∨ r.ty.ndim = 2) ∧ isFloatComplexDtype r.ty.dtype = true) then
    [.bare (scaled scale r)]
  else if maxclients ≠ 0 ∧ fg.clients r > maxclients then [.pair scale r]
  else
    match r with
    | .node _ .sub (.cons a (.cons b _)) _ =>
        canonV fg a scale 1 ++ canonV fg b scale.negS 1
    | .node _ .add inputs _ => canonList fg inputs scale
    | .node _ .neg (.cons x _) _ => canonV fg x scale.negS 1
    | .node i .mul inputs t =>
        match classifyMulInputs inputs with
        | none => [.pair scale (.node i .mul inputs t)]
        | some (ss, vs, ms) =>
          if ms.length = 1 then
            if vs.length ≠ 0 then [.assertFail]
            else canonFirst fg inputs isMatrixFactor (mulFoldScale scale ss)
          else if vs.length = 1 then
            if ms.length ≠ 0 then [.assertFail]
            else canonFirst fg inputs isVectorFactor (mulFoldScale scale ss)
          else [.pair scale (.node i .mul inputs t)]
    | _ => [.pair scale r]
/-- The `for i in r.owner.inputs` loop of the `add` case: recurse on every
child with the same scale and `maxclients = 1`. -/
def canonList (fg : FGraph) (l : VList) (scale : Scale) : List Item :=
  match l with
  | .nil => []
  | .cons h t => canonV fg h scale 1 ++ canonList fg t scale
/-- Recurse on the first input satisfying `pred` (the unique matrix or vector
factor of a `mul`, as established by `classifyMulInputs`). -/
def canonFirst (fg : FGraph) (l : VList) (pred : Var → Bool) (scale : Scale) : List Item :=
  match l with
  | .nil => []
  | .cons h t => if pred h then canonV fg h scale 1 else canonFirst fg t pred scale
end

/-- The inner `while j` loop of `_factor_canonicalized`: scan the remainder
for pairs whose term is (reference-)identical to `m`, summing their scales
into `s` and deleting them; non-pair entries are skipped. -/
def factorStep (s : Scale) (m : Var) : List Item → Scale × List Item
  | [] => (s, [])
  | .pair sj mj :: t =>
      if mj = m then factorStep (s.addS sj) m t
      else
        let r := factorStep s m t
        (r.1, .pair sj mj :: r.2)
  | it :: t =>
      let r := factorStep s m t
      (r.1, it :: r.2)

/-- The outer `while i` loop of `_factor_canonicalized`; the fuel argument
(`≥` list length suffices, since `factorStep` only deletes) makes the
recursion structural. -/
def factorAux : Nat → List Item → List Item
  | 0, l => l
  | _ + 1, [] => []
  | fuel + 1, .pair s m :: t =>
      let r := factorStep s m t
      .pair r.1 m :: factorAux fuel r.2
  | fuel + 1, it :: t => it :: factorAux fuel t

/-- `_factor_canonicalized(lst)`: merge duplicate terms by summing scales. -/
def factorCanonicalized (l : List Item) : List Item := factorAux l.length l

/-- `item_to_var` from `_gemm_from_factored_list`: a bare entry is returned
unchanged; a pair with scale 1 gives the term, scale -1 its negation, and
anything else a multiplication. -/
def itemToVar : Item → Var
  | .bare v => v
  | .pair s m =>
      if s.isOne then m
      else if s.isNegOne then mkNeg m
      else mkMul2 s.toVar m
  | .assertFail => .leaf 0 ⟨false, .float64, []⟩

/-- Errors a `make_node`/rewrite attempt can raise. -/
inductive MkErr where
  | notImplemented
  | typeErr
  | inconsistency
  | assertionError
  deriving DecidableEq

/-- `Gemm.make_node` (`blas.py:934-982`): checks dense inputs, arity 5 (the
arity check is folded into the outer match; per input the returned error is
unchanged); when
the op is the inplace variant, refuses (`InconsistencyError`) if the view
roots of `z` intersect those of `x` or of `y`; then checks ranks
(2,0,2,2,0), a single shared dtype, and float/complex dtype; on success the
`Apply` output has `z`'s type. -/
def gemmMakeNode (inplace : Bool) (inputs : List Var) : Except MkErr Var :=
  match inputs with
  | [z, a, x, y, b] =>
      if ¬ ([z, a, x, y, b].all (fun i => i.ty.isTensor) = true) then
        .error .notImplemented
      else if inplace = true ∧ hasCommon (viewRoots z) (viewRoots x) = true then
        .error .inconsistency
      else if inplace = true ∧ hasCommon (viewRoots z) (viewRoots y) = true then
        .error .inconsistency
      else if z.ty.ndim ≠ 2 then .error .typeErr
      else if a.ty.ndim ≠ 0 then .error .typeErr
      else if x.ty.ndim ≠ 2 then .error .typeErr
      else if y.ty.ndim ≠ 2 then .error .typeErr
      else if b.ty.ndim ≠ 0 then .error .typeErr
      else if ¬ (z.ty.dtype = a.ty.dtype ∧ a.ty.dtype = x.ty.dtype
                  ∧ x.ty.dtype = y.ty.dtype ∧ y.ty.dtype = b.ty.dtype) then
        .error .typeErr
      else if ¬ isFloatComplexDtype z.ty.dtype = true then .error .typeErr
      else .ok (.node 0 (.gemm inplace) (VList.ofList [z, a, x, y, b]) z.ty)
  | _ =>
      if ¬ (inputs.all (fun i => i.ty.isTensor) = true) then .error .notImplemented
      else .error .typeErr

/-- One direction of `_beta_L_plus_alpha_M` (`blas.py:1247-1289`), without the
final `recurse_flip`: if `M` is a `dot22` output, emit
`gemm_no_inplace(L, alpha, Ml, Mr, beta)`; if `M` is a `DimShuffle` of a
`dot22` with order `(0,)`, `(1,)` or `()`, reshape `L` accordingly, emit the
gemm and reshape it back; otherwise no match. -/
def betaLOnce (beta : Scale) (L : Var) (alpha : Scale) (M : Var) :
    Except MkErr (Option (List Var × Var)) :=
  match M with
  | .node _ .dot22 (.cons Ml (.cons Mr _)) _ => do
      let g ← gemmMakeNode false [L, alpha.toVar, Ml, Mr, beta.toVar]
      pure (some ([g], M))
  | .node _ (.dimshuffle ord)
      (.cons (.node i2 .dot22 (.cons MMl (.cons MMr r2)) t2) _) _ =>
      let MM : Var := .node i2 .dot22 (.cons MMl (.cons MMr r2)) t2
      if ord = [some 0] then do
        let g ← gemmMakeNode false [mkDimshuffle [some 0, none] L, alpha.toVar, MMl, MMr, beta.toVar]
        pure (some ([mkDimshuffle [some 0] g], MM))
      else if ord = [some 1] then do
        let g ← gemmMakeNode false [mkDimshuffle [none, some 0] L, alpha.toVar, MMl, MMr, beta.toVar]
        pure (some ([mkDimshuffle [some 1] g], MM))
      else if ord = [] then do
        let g ← gemmMakeNode false [mkDimshuffle [none, none] L, alpha.toVar, MMl, MMr, beta.toVar]
        pure (some ([mkDimshuffle [] g], MM))
      else pure none
  | _ => pure none

/-- `_beta_L_plus_alpha_M(fgraph, beta, L, alpha, M, recurse_flip=True)`:
try the direct orientation, then once with the roles of the two terms
swapped. -/
def betaLPlusAlphaM (beta : Scale) (L : Var) (alpha : Scale) (M : Var) :
    Except MkErr (Option (List Var × Var)) := do
  match ← betaLOnce beta L alpha M with
  | some r => pure (some r)
  | none => betaLOnce alpha M beta L

/-- The `lst2` filter of `_gemm_from_factored_list`: keep only tuple entries
whose scale can be cast to the term's dtype without upcasting it, and cast
the scale. -/
def gfflCastPair : Item → Option (Scale × Var)
  | .pair s m =>
      let sm0 := s.toVar
      if upcast sm0.ty.dtype m.ty.dtype = m.ty.dtype then
        some (.sym (castVar sm0 m.ty.dtype), m)
      else none
  | _ => none

/-- The ordered index pairs `(i, j)` visited by the double loop
`for i in range(len(lst) - 1): for j in range(i + 1, len(lst))`. -/
def pairIndices (n : Nat) : List (Nat × Nat) :=
  (List.range n).flatMap (fun i =>
    (List.range n).filterMap (fun j => if i < j then some (i, j) else none))

/-- The body of the double loop of `_gemm_from_factored_list` for one index
pair: require the two terms to be in the same type class, try
`_beta_L_plus_alpha_M`, and on success rebuild the remaining items around
the emitted gemm (wrapping in `add` only when more than one input remains). -/
def gfflTryPair (l : List (Scale × Var)) (ij : Nat × Nat) :
    Except MkErr (Option (List Var × Var)) :=
  match l.get? ij.1, l.get? ij.2 with
  | some (si, Mi), some (sj, Mj) =>
      if ¬ inSameClass Mj.ty Mi.ty = true then pure none
      else do
        match ← betaLPlusAlphaM si Mi sj Mj with
        | none => pure none
        | some (gemmList, oldDot) =>
            let addInputs :=
              ((l.enum.filterMap (fun p =>
                  if p.1 = ij.1 ∨ p.1 = ij.2 then none
                  else some (itemToVar (.pair p.2.1 p.2.2)))) ++ gemmList)
            if addInputs.length > 1 then pure (some ([mkAddN addInputs], oldDot))
            else pure (some (addInputs, oldDot))
  | _, _ => pure none

/-- Run a fallible search over a list, returning the first hit. -/
def firstSomeM {α β : Type} (f : α → Except MkErr (Option β)) :
    List α → Except MkErr (Option β)
  | [] => pure none
  | p :: t => do
      match ← f p with
      | some r => pure (some r)
      | none => firstSomeM f t

/-- `_gemm_from_factored_list(fgraph, lst)` (`blas.py:1420-1478`). -/
def gemmFromFactoredList (lst : List Item) : Except MkErr (Option (List Var × Var)) :=
  let lst2 := lst.filterMap gfflCastPair
  firstSomeM (gfflTryPair lst2) (pairIndices lst2.length)

/-- `_gemm_from_node2(fgraph, node)` (`blas.py:1481-1513`): canonicalize the
node's output with scale `1.0` and no client bound, and when more than one
term results, factor the list, search it for a gemm, and accept the
candidate only if its first output is in the same type class as the
original output.  An `assertFail` item models the uncaught
`AssertionError` of the mixed vector/matrix `mul` case. -/
def gemmFromNode2 (fg : FGraph) (node : Var) : Except MkErr (Option (List Var × Var)) :=
  let lst := canonV fg node (.num 1) 0
  if lst.contains .assertFail then .error .assertionError
  else if lst.length > 1 then do
    match ← gemmFromFactoredList (factorCanonicalized lst) with
    | some (v :: vs, old) =>
        if inSameClass (Var.ty v) node.ty = true then pure (some (v :: vs, old))
        else pure none
    | _ => pure none
  else pure none

/-- A dense rank-2 array, as a list of rows of rationals (the float values in
the claims are exactly representable). -/
abbrev Mat := List (List ℚ)

/-- Number of rows. -/
def Mat.rowsN (m : Mat) : Nat := m.length

/-- Number of columns (of the first row). -/
def Mat.colsN (m : Mat) : Nat := (m.headD []).length

/-- Entry `m[i, j]` (0 outside the array). -/
def Mat.entry (m : Mat) (i j : Nat) : ℚ := (m.getD i []).getD j 0

/-- `np.dot(x, y)` for rank-2 arrays. -/
def matMul (x y : Mat) : Mat :=
  (List.range x.rowsN).map (fun i =>
    (List.range y.colsN).map (fun j =>
      ((List.range y.rowsN).map (fun k => x.entry i k * y.entry k j)).sum))

/-- Elementwise combination of two equal-shaped arrays. -/
def matZip (f : ℚ → ℚ → ℚ) (a b : Mat) : Mat :=
  List.zipWith (List.zipWith f) a b

/-- Scalar multiple of an array. -/
def matSmul (a : ℚ) (m : Mat) : Mat := m.map (List.map (fun q => a * q))

/-- `np.broadcast_to(m, (r, c))` for the size-1 dims of `m`. -/
def broadcastToMat (m : Mat) (r c : Nat) : Mat :=
  (if m.rowsN = r then m else List.replicate r (m.headD [])).map
    (fun row => if row.length = c then row else List.replicate c (row.headD 0))

/-- The value written to the output storage by `Gemm.perform`
(`blas.py:984-1017`): broadcast `z` when a product dim exceeds it, then take
the `b = 0 / b = 1 / general` and `a = 1 / a = -1 / general` branches of the
accumulation `b·z + a·(x·y)`. -/
def gemmPerformVal (z : Mat) (a : ℚ) (x y : Mat) (b : ℚ) : Mat :=
  let z1 := if x.rowsN > z.rowsN ∨ y.colsN > z.colsN then
      broadcastToMat z (max x.rowsN z.rowsN) (max y.colsN z.colsN)
    else z
  let d := matMul x y
  if b = 0 then
    if a = 1 then d else if a = -1 then matSmul (-1) d else matSmul a d
  else if b = 1 then
    if a = 1 then matZip (· + ·) z1 d
    else if a = -1 then matZip (· - ·) z1 d
    else matZip (· + ·) z1 (matSmul a d)
  else matZip (· + ·) (matSmul b z1) (matSmul a d)

/-- `Gemm.perform` with explicit storage effects: the first component is the
output value; the second is the content of the caller's `z` buffer after
the call.  The non-inplace variant first copies `z` (`z = z.copy()`), so the
caller's buffer is untouched; the inplace variant accumulates into the
caller's buffer unless broadcasting rebinds `z` to a fresh copy
(`np.broadcast_to(...).copy()`). -/
def gemmPerform (inplace : Bool) (z : Mat) (a : ℚ) (x y : Mat) (b : ℚ) : Mat × Mat :=
  let needBroadcast := x.rowsN > z.rowsN ∨ y.colsN > z.colsN
  let zout := gemmPerformVal z a x y b
  (zout, if inplace = true ∧ ¬ needBroadcast then zout else z)

/-- `local_inplace_gemm` (`blas.py:1787-1792`): on a `gemm_no_inplace` node,
return `[gemm_inplace(*node.inputs)]`; on anything else, no match. -/
def localInplaceGemm (node : Var) : Except MkErr (Option (List Var)) :=
  match node with
  | .node _ (.gemm false) inputs _ => do
      let g ← gemmMakeNode true inputs.toList
      pure (some [g])
  | _ => pure none

/-- Errors `replace_all_validate_remove` can raise, both caught by
`GemmOptimizer.apply`. -/
inductive ReplErr where
  | inconsistency
  | didNotRemove
  deriving DecidableEq

/-- Per-node outcome of one iteration of the inner `for node in nodelist`
loop of `GemmOptimizer.apply`: the result of `_gemm_from_node2` (a candidate
or an exception) and the result of `replace_all_validate_remove` (consulted
only when a candidate was produced). -/
abbrev NodeEvt := Except MkErr (Option Unit) × Except ReplErr Unit

/-- The failure counters of `GemmOptimizer.apply`. -/
structure GOState where
  nbReplacement : Nat
  nbReplacementDidntRemove : Nat
  nbInconsistencyMake : Nat
  nbInconsistencyReplace : Nat
  warned : Bool
  deriving DecidableEq, Inhabited

/-- One iteration of the inner loop of `GemmOptimizer.apply`
(`blas.py:1557-1606`): an `InconsistencyError` from `_gemm_from_node2` is
counted and skipped; any other exception propagates; a produced candidate is
committed, and an `InconsistencyError` or `ReplacementDidNotRemoveError`
from the commit is counted and skipped. -/
def gemmStep (st : GOState) (e : NodeEvt) : Except MkErr GOState :=
  match e.1 with
  | .error .inconsistency =>
      .ok { st with nbInconsistencyMake := st.nbInconsistencyMake + 1 }
  | .error err => .error err
  | .ok none => .ok st
  | .ok (some _) =>
      match e.2 with
      | .ok _ => .ok { st with nbReplacement := st.nbReplacement + 1 }
      | .error .inconsistency =>
          .ok { st with nbInconsistencyReplace := st.nbInconsistencyReplace + 1 }
      | .error .didNotRemove =>
          .ok { st with nbReplacementDidntRemove := st.nbReplacementDidntRemove + 1,
                        warned := true }

/-- One full pass of `GemmOptimizer.apply` over the reverse toposort list. -/
def gemmPassAux (st : GOState) : List NodeEvt → Except MkErr GOState
  | [] => .ok st
  | e :: rest =>
      match gemmStep st e with
      | .ok st' => gemmPassAux st' rest
      | .error err => .error err

/-- The `while did_something` loop of `GemmOptimizer.apply`: run pass `k`,
and repeat with the next pass exactly when the pass performed at least one
successful replacement (`did_something` is set only at
`nb_replacement += 1`).  `evts k` abstracts the per-node outcomes of pass
`k` on the evolving graph; `none` is returned if the fuel runs out before a
pass makes no replacement. -/
def gemmApply (evts : Nat → List NodeEvt) :
    Nat → Nat → GOState → Option (Except MkErr GOState)
  | 0, _, _ => none
  | fuel + 1, k, st =>
      match gemmPassAux st (evts k) with
      | .error e => some (.error e)
      | .ok st' =>
          if st.nbReplacement < st'.nbReplacement then gemmApply evts fuel (k + 1) st'
          else some (.ok st')

/-- The matrix type of the C1 graph: dense float64, unknown 2-d shape. -/
def tyMat : Ty := ⟨true, .float64, [none, none]⟩

/-- A dense 0-d float64 type. -/
def tyScal : Ty := ⟨true, .float64, []⟩

/-- The accumulate target `Z` of the C1 expression. -/
def varZ : Var := .leaf 1 tyMat

/-- The left product operand `X` of the C1 expression. -/
def varX : Var := .leaf 2 tyMat

/-- The right product operand `Y` of the C1 expression. -/
def varY : Var := .leaf 3 tyMat

/-- The scalar constant `beta = 1.0`. -/
def cBeta : Var := .cst 1 tyScal

/-- The scalar constant `alpha = 2.0`. -/
def cAlpha : Var := .cst 2 tyScal

/-- `dot22(X, Y)` (the form `local_dot_to_dot22` gives `dot(X, Y)`). -/
def dotXY : Var := .node 13 .dot22 (.cons varX (.cons varY .nil)) tyMat

/-- `beta * Z`. -/
def mulBZ : Var := .node 11 .mul (.cons cBeta (.cons varZ .nil)) tyMat

/-- `alpha * dot22(X, Y)`. -/
def mulADot : Var := .node 12 .mul (.cons cAlpha (.cons dotXY .nil)) tyMat

/-- The root `beta*Z + alpha*dot(X, Y)` of the C1 expression. -/
def rootC1 : Var := .node 10 .add (.cons mulBZ (.cons mulADot .nil)) tyMat

/-- The client counts of the C1 graph: every variable has exactly one
consumer entry. -/
def fgC1 : FGraph := ⟨fun _ => 1⟩

/-- The single fused accumulate Apply the optimizer emits for C1:
`gemm_no_inplace(Z, alpha, X, Y, beta)`. -/
def gemmC1 : Var :=
  .node 0 (.gemm false)
    (.cons varZ (.cons cAlpha (.cons varX (.cons varY (.cons cBeta .nil))))) tyMat

/-- The terms of the pair entries of a canonicalized list, in order. -/
def termsOf (l : List Item) : List Var :=
  l.filterMap (fun it => match it with | .pair _ m => some m | _ => none)

/-- Whether a candidate-building outcome is one the driver loop catches
(success, or an `InconsistencyError`). -/
def buildCaught (e : NodeEvt) : Bool :=
  match e.1 with
  | .ok _ => true
  | .error .inconsistency => true
  | .error _ => false

/-- A node whose candidate construction raised `InconsistencyError`. -/
def isBuildIncons (e : NodeEvt) : Bool :=
  match e.1 with
  | .error .inconsistency => true
  | _ => false

/-- A node whose candidate was committed successfully. -/
def isReplSuccess (e : NodeEvt) : Bool :=
  match e.1, e.2 with
  | .ok (some _), .ok _ => true
  | _, _ => false

/-- A node whose commit raised `InconsistencyError`. -/
def isReplIncons (e : NodeEvt) : Bool :=
  match e.1, e.2 with
  | .ok (some _), .error .inconsistency => true
  | _, _ => false

/-- A node whose commit raised `ReplacementDidNotRemoveError`. -/
def isReplDidnt (e : NodeEvt) : Bool :=
  match e.1, e.2 with
  | .ok (some _), .error .didNotRemove => true
  | _, _ => false

/-- A 0-d float64 graph input (a scalar argument for `Gemm.make_node`). -/
def scalA : Var := .leaf 4 tyScal

/-- Another 0-d float64 graph input. -/
def scalB : Var := .leaf 5 tyScal

/-- A 0-d float64 graph input: a tensor the canonicalizer treats as an
opaque non-rank-1/2 value. -/
def scal0 : Var := .leaf 7 tyScal

/-- A 0-d bool-typed graph input (the dtype `scaled` special-cases). -/
def varBool : Var := .leaf 8 ⟨true, .bool, []⟩

/-- A concrete event list for the driver model: one candidate construction
failure, one commit inconsistency, one commit that did not remove, one
success, and one non-match. -/
def evtsC6 : List NodeEvt :=
  [(.error .inconsistency, .ok ()),
   (.ok (some ()), .error .inconsistency),
   (.ok (some ()), .error .didNotRemove),
   (.ok (some ()), .ok ()),
   (.ok none, .ok ())]

theorem termsOf_nil : termsOf [] = [] := rfl

theorem termsOf_pair (s : Scale) (m : Var) (t : List Item) :
    termsOf (.pair s m :: t) = m :: termsOf t := rfl

theorem termsOf_bare (v : Var) (t : List Item) :
    termsOf (.bare v :: t) = termsOf t := rfl

theorem termsOf_assert (t : List Item) :
    termsOf (.assertFail :: t) = termsOf t := rfl

theorem factorStep_not_mem (m : Var) :
    ∀ (t : List Item) (s : Scale), m ∉ termsOf (factorStep s m t).2 := by
  intro t
  induction t with
  | nil => intro s; simp [factorStep, termsOf_nil]
  | cons it rest ih =>
    intro s
    match it with
    | .pair sj mj =>
      by_cases hm : mj = m
      · simpa [factorStep, hm] using ih (s.addS sj)
      · simpa [factorStep, hm, termsOf_pair] using ⟨fun e => hm e.symm, ih s⟩
    | .bare v => simpa [factorStep, termsOf_bare] using ih s
    | .assertFail => simpa [factorStep, termsOf_assert] using ih s

theorem factorStep_subset (m : Var) :
    ∀ (t : List Item) (s : Scale), termsOf (factorStep s m t).2 ⊆ termsOf t := by
  intro t
  induction t with
  | nil => intro s; simp [factorStep]
  | cons it rest ih =>
    intro s
    match it with
    | .pair sj mj =>
      by_cases hm : mj = m
      · simp only [factorStep, hm, if_pos rfl, termsOf_pair]
        exact (ih (s.addS sj)).trans (List.subset_cons_self _ _)
      · simp only [factorStep, hm, if_neg hm, termsOf_pair]
        exact List.cons_subset_cons _ (ih s)
    | .bare v =>
      simp only [factorStep, termsOf_bare]
      exact ih s
    | .assertFail =>
      simp only [factorStep, termsOf_assert]
      exact ih s

theorem factorStep_length (m : Var) :
    ∀ (t : List Item) (s : Scale), (factorStep s m t).2.length ≤ t.length := by
  intro t
  induction t with
  | nil => intro s; simp [factorStep]
  | cons it rest ih =>
    intro s
    match it with
    | .pair sj mj =>
      by_cases hm : mj = m
      · simp only [factorStep, hm, if_pos rfl, List.length_cons]
        exact (ih (s.addS sj)).trans (Nat.le_succ _)
      · simp only [factorStep, hm, if_neg hm, List.length_cons]
        exact Nat.succ_le_succ (ih s)
    | .bare v =>
      simp only [factorStep, List.length_cons]
      exact Nat.succ_le_succ (ih s)
    | .assertFail =>
      simp only [factorStep, List.length_cons]
      exact Nat.succ_le_succ (ih s)

theorem factorAux_subset :
    ∀ (fuel : Nat) (l : List Item), termsOf (factorAux fuel l) ⊆ termsOf l := by
  intro fuel
  induction fuel with
  | zero => intro l; simp [factorAux]
  | succ n ih =>
    intro l
    match l with
    | [] => simp [factorAux]
    | .pair s m :: t =>
      simp only [factorAux, termsOf_pair]
      refine List.cons_subset_cons _ ?_
      exact (ih _).trans (factorStep_subset m t s)
    | .bare v :: t =>
      simp only [factorAux, termsOf_bare]
      exact ih t
    | .assertFail :: t =>
      simp only [factorAux, termsOf_assert]
      exact ih t

theorem factorAux_nodup :
    ∀ (fuel : Nat) (l : List Item), l.length ≤ fuel → (termsOf (factorAux fuel l)).Nodup := by
  intro fuel
  induction fuel with
  | zero =>
    intro l hl
    have : l = [] := List.length_eq_zero.mp (Nat.le_zero.mp hl)
    subst this
    simp [factorAux, termsOf_nil]
  | succ n ih =>
    intro l hl
    match l with
    | [] => simp [factorAux, termsOf_nil]
    | .pair s m :: t =>
      simp only [factorAux, termsOf_pair, List.nodup_cons]
      constructor
      · intro hmem
        exact factorStep_not_mem m t s (factorAux_subset n _ hmem)
      · exact ih _ ((factorStep_length m t s).trans (by simpa using hl))
    | .bare v :: t =>
      simp only [factorAux, termsOf_bare]
      exact ih t (by simpa using hl)
    | .assertFail :: t =>
      simp only [factorAux, termsOf_assert]
      exact ih t (by simpa using hl)

theorem inSameClass_dtype_ndim (a b : Ty) (h : inSameClass a b = true) :
    a.dtype = b.dtype ∧ a.ndim = b.ndim := by
  simp only [inSameClass, Bool.and_eq_true, beq_iff_eq] at h
  refine ⟨h.1, ?_⟩
  have := congrArg List.length h.2
  simpa [Ty.broadcastable, Ty.ndim] using this

theorem canonList_eq_flatMap (fg : FGraph) (sc : Scale) :
    ∀ l : VList, canonList fg l sc = l.toList.flatMap (fun c => canonV fg c sc 1)
  | .nil => by simp [canonList, VList.toList]
  | .cons h t => by
      simp only [canonList, VList.toList, List.flatMap_cons]
      rw [canonList_eq_flatMap fg sc t]

theorem classifyFirst_matrix (fg : FGraph) (sc : Scale) :
    ∀ (l : VList) (ss vs ms : List Var), classifyMulInputs l = some (ss, vs, ms) →
      ∀ m ms', ms = m :: ms' → canonFirst fg l isMatrixFactor sc = canonV fg m sc 1
  | .nil => by
      intro ss vs ms h m ms' hms
      simp only [classifyMulInputs, Option.some.injEq, Prod.mk.injEq] at h
      rw [← h.2.2] at hms
      exact absurd hms (by simp)
  | .cons i rest => by
      intro ss vs ms h m ms' hms
      simp only [classifyMulInputs] at h
      by_cases h1 : allOneShape i.ty = true
      · rw [if_pos h1] at h
        match hrec : classifyMulInputs rest with
        | none => rw [hrec] at h; exact absurd h (by simp)
        | some (ss2, vs2, ms2) =>
          rw [hrec] at h
          simp only [Option.some.injEq, Prod.mk.injEq] at h
          have hpred : isMatrixFactor i = false := by
            simp [isMatrixFactor, h1]
          simp only [canonFirst, hpred, Bool.false_eq_true, if_false]
          exact classifyFirst_matrix fg sc rest ss2 vs2 ms2 hrec m ms' (by rw [h.2.2]; exact hms)
      · rw [if_neg h1] at h
        by_cases h2 : isRealVector i = true
        · rw [if_pos h2] at h
          match hrec : classifyMulInputs rest with
          | none => rw [hrec] at h; exact absurd h (by simp)
          | some (ss2, vs2, ms2) =>
            rw [hrec] at h
            simp only [Option.some.injEq, Prod.mk.injEq] at h
            have hpred : isMatrixFactor i = false := by
              simp [isMatrixFactor, h2]
            simp only [canonFirst, hpred, Bool.false_eq_true, if_false]
            exact classifyFirst_matrix fg sc rest ss2 vs2 ms2 hrec m ms' (by rw [h.2.2]; exact hms)
        · rw [if_neg h2] at h
          by_cases h3 : isRealMatrix i = true
          · rw [if_pos h3] at h
            match hrec : classifyMulInputs rest with
            | none => rw [hrec] at h; exact absurd h (by simp)
            | some (ss2, vs2, ms2) =>
              rw [hrec] at h
              simp only [Option.some.injEq, Prod.mk.injEq] at h
              have hpred : isMatrixFactor i = true := by
                simp only [isMatrixFactor, Bool.and_eq_true, Bool.not_eq_true']
                exact ⟨⟨Bool.not_eq_true _ ▸ (Bool.eq_false_iff.mpr h1), Bool.eq_false_iff.mpr h2⟩, h3⟩
              simp only [canonFirst, hpred, if_true]
              have : m = i := by
                have := h.2.2
                rw [← this] at hms
                exact (List.cons.injEq _ _ _ _ ▸ hms).1.symm ▸ rfl
              rw [this]
          · rw [if_neg h3] at h
            exact absurd h (by simp)

theorem classifyFirst_vector (fg : FGraph) (sc : Scale) :
    ∀ (l : VList) (ss vs ms : List Var), classifyMulInputs l = some (ss, vs, ms) →
      ∀ v vs', vs = v :: vs' → canonFirst fg l isVectorFactor sc = canonV fg v sc 1
  | .nil => by
      intro ss vs ms h v vs' hvs
      simp only [classifyMulInputs, Option.some.injEq, Prod.mk.injEq] at h
      rw [← h.2.1] at hvs
      exact absurd hvs (by simp)
  | .cons i rest => by
      intro ss vs ms h v vs' hvs
      simp only [classifyMulInputs] at h
      by_cases h1 : allOneShape i.ty = true
      · rw [if_pos h1] at h
        match hrec : classifyMulInputs rest with
        | none => rw [hrec] at h; exact absurd h (by simp)
        | some (ss2, vs2, ms2) =>
          rw [hrec] at h
          simp only [Option.some.injEq, Prod.mk.injEq] at h
          have hpred : isVectorFactor i = false := by
            simp [isVectorFactor, h1]
          simp only [canonFirst, hpred, Bool.false_eq_true, if_false]
          exact classifyFirst_vector fg sc rest ss2 vs2 ms2 hrec v vs' (by rw [h.2.1]; exact hvs)
      · rw [if_neg h1] at h
        by_cases h2 : isRealVector i = true
        · rw [if_pos h2] at h
          match hrec : classifyMulInputs rest with
          | none => rw [hrec] at h; exact absurd h (by simp)
          | some (ss2, vs2, ms2) =>
            rw [hrec] at h
            simp only [Option.some.injEq, Prod.mk.injEq] at h
            have hpred : isVectorFactor i = true := by
              simp only [isVectorFactor, Bool.and_eq_true, Bool.not_eq_true']
              exact ⟨Bool.eq_false_iff.mpr h1, h2⟩
            simp only [canonFirst, hpred, if_true]
            have : v = i := by
              have := h.2.1
              rw [← this] at hvs
              exact (List.cons.injEq _ _ _ _ ▸ hvs).1.symm ▸ rfl
            rw [this]
        · rw [if_neg h2] at h
          by_cases h3 : isRealMatrix i = true
          · rw [if_pos h3] at h
            match hrec : classifyMulInputs rest with
            | none => rw [hrec] at h; exact absurd h (by simp)
            | some (ss2, vs2, ms2) =>
              rw [hrec] at h
              simp only [Option.some.injEq, Prod.mk.injEq] at h
              have hpred : isVectorFactor i = false := by
                simp [isVectorFactor, h2]
              simp only [canonFirst, hpred, Bool.false_eq_true, if_false]
              exact classifyFirst_vector fg sc rest ss2 vs2 ms2 hrec v vs' (by rw [h.2.1]; exact hvs)
          · rw [if_neg h3] at h
            exact absurd h (by simp)

set_option maxHeartbeats 1600000 in
theorem gemmMakeNode_ok_shape5 (ip : Bool) (z a x y b g : Var)
    (h : gemmMakeNode ip [z, a, x, y, b] = .ok g) :
    g = .node 0 (.gemm ip) (VList.ofList [z, a, x, y, b]) z.ty := by
  rw [gemmMakeNode] at h
  repeat' (split at h)
  all_goals
    first
      | exact Except.noConfusion h
      | (injection h with h2; exact h2.symm)

theorem gemmStep_mono (st st' : GOState) (e : NodeEvt)
    (h : gemmStep st e = .ok st') : st.nbReplacement ≤ st'.nbReplacement := by
  rcases e with ⟨b, r⟩
  match b with
  | .error .inconsistency => injection h with h2; subst h2; exact le_refl _
  | .error .notImplemented => exact Except.noConfusion h
  | .error .typeErr => exact Except.noConfusion h
  | .error .assertionError => exact Except.noConfusion h
  | .ok none => injection h with h2; subst h2; exact le_refl _
  | .ok (some u) =>
    match r with
    | .ok _ => injection h with h2; subst h2; exact Nat.le_succ _
    | .error .inconsistency => injection h with h2; subst h2; exact le_refl _
    | .error .didNotRemove => injection h with h2; subst h2; exact le_refl _

theorem gemmPassAux_mono :
    ∀ (l : List NodeEvt) (st st' : GOState), gemmPassAux st l = .ok st' →
      st.nbReplacement ≤ st'.nbReplacement := by
  intro l
  induction l with
  | nil => intro st st' h; simp only [gemmPassAux] at h; cases h; exact le_refl _
  | cons e rest ih =>
    intro st st' h
    simp only [gemmPassAux] at h
    match hs : gemmStep st e with
    | .ok st1 =>
      rw [hs] at h
      exact (gemmStep_mono st st1 e hs).trans (ih st1 st' h)
    | .error err => rw [hs] at h; exact absurd h (by simp)

theorem toList_ofList : ∀ l : List Var, (VList.ofList l).toList = l
  | [] => rfl
  | h :: t => by
      simp only [VList.ofList, VList.toList]
      rw [toList_ofList t]

/-- Claim C1: for Z = [[1,2],[3,4]], X = [[1,0],[0,1]], Y = [[5,6],[7,8]],
alpha = 2.0, beta = 1.0, the GEMM optimizer canonicalizes
`beta*Z + alpha*dot(X,Y)` into the single fused Apply
`gemm_no_inplace(Z, alpha, X, Y, beta)` (removing the `dot22` node), and
`Gemm.perform` on these values returns [[11,14],[17,20]]. -/
theorem claimC1 :
    gemmFromNode2 fgC1 rootC1 = .ok (some ([gemmC1], dotXY)) ∧
    (gemmPerform false [[1,2],[3,4]] 2 [[1,0],[0,1]] [[5,6],[7,8]] 1).1
      = [[11,14],[17,20]] := by
  constructor
  · rfl
  · norm_num [gemmPerform, gemmPerformVal, matMul, matZip, matSmul,
      Mat.rowsN, Mat.colsN, Mat.entry, List.range_succ]

/-- Claim C2: `_factor_canonicalized` merges entries with the (reference-)
identical term into one entry whose scale is the sum of their scales, so no
term appears in two pair entries of the output; in particular
`[(3, M), (-1, M)]` becomes exactly `[(2, M)]`. -/
theorem claimC2 :
    (∀ (s1 s2 : Scale) (m : Var),
        factorCanonicalized [.pair s1 m, .pair s2 m] = [.pair (s1.addS s2) m]) ∧
    (∀ l : List Item, (termsOf (factorCanonicalized l)).Nodup) ∧
    (∀ m : Var,
        factorCanonicalized [.pair (.num 3) m, .pair (.num (-1)) m]
          = [.pair (.num 2) m]) := by
  refine ⟨?_, ?_, ?_⟩
  · intro s1 s2 m
    simp [factorCanonicalized, factorAux, factorStep]
  · intro l
    exact factorAux_nodup l.length l (le_refl _)
  · intro m
    have h3 : (Scale.num 3).addS (.num (-1)) = .num 2 := by
      simp only [Scale.addS, Scale.num.injEq]
      norm_num
    simp [factorCanonicalized, factorAux, factorStep, h3]

/-- Claim C8 counterexample: in `scaled`, a scale of exactly -1 applied to a
bool-typed term does not return the negation of the term — it falls through
to the multiplication branch. -/
theorem claimC8_cex :
    scaled (.num (-1)) varBool = mkMul2 (Scale.toVar (.num (-1))) varBool ∧
    scaled (.num (-1)) varBool ≠ mkNeg varBool := by
  constructor
  · rfl
  · intro hcontra
    rw [show scaled (.num (-1)) varBool = mkMul2 (Scale.toVar (.num (-1))) varBool
          from rfl] at hcontra
    simp [mkMul2, mkNeg] at hcontra

/-- Claim C8 (amended): re-synthesis uses the term unchanged for scale 1 and
its negation for scale -1 — in `scaled` the negation case additionally
requires a non-bool term dtype (a bool term is multiplied instead); in
`item_to_var` the rules hold unconditionally.  A multiply-by-one Apply is
never created. -/
theorem claimC8 :
    (∀ v : Var, scaled (.num 1) v = v) ∧
    (∀ v : Var, v.ty.dtype ≠ .bool → scaled (.num (-1)) v = mkNeg v) ∧
    (∀ v : Var, v.ty.dtype = .bool →
        scaled (.num (-1)) v = mkMul2 (Scale.toVar (.num (-1))) v) ∧
    (∀ m : Var, itemToVar (.pair (.num 1) m) = m) ∧
    (∀ m : Var, itemToVar (.pair (.num (-1)) m) = mkNeg m) := by
  have hone : Scale.isOne (.num (-1)) = false := by
    simp only [Scale.isOne, beq_eq_false_iff_ne]
    norm_num
  have hneg : Scale.isNegOne (.num (-1)) = true := by
    simp [Scale.isNegOne]
  refine ⟨?_, ?_, ?_, ?_, ?_⟩
  · intro v
    simp [scaled, Scale.isOne]
  · intro v h
    simp [scaled, hone, hneg, h]
  · intro v h
    simp [scaled, hone, hneg, h]
  · intro m
    simp [itemToVar, Scale.isOne]
  · intro m
    simp [itemToVar, hone, hneg]

/-- Claim C8 witness: scale -1 on a float64 term yields its negation. -/
theorem claimC8_witness : scaled (.num (-1)) scal0 = mkNeg scal0 :=
  claimC8.2.1 scal0 (by decide)

/-- Claim C9: `local_inplace_gemm` rewrites a `gemm_no_inplace` Apply into
`gemm_inplace` applied to the identical input list, and the two variants
compute the same output values. -/
theorem claimC9 :
    (∀ (i : Nat) (t : Ty) (z a x y b g : Var),
        gemmMakeNode true [z, a, x, y, b] = .ok g →
        localInplaceGemm (.node i (.gemm false) (VList.ofList [z, a, x, y, b]) t)
            = .ok (some [g]) ∧
          g = .node 0 (.gemm true) (VList.ofList [z, a, x, y, b]) z.ty) ∧
    (∀ (z x y : Mat) (a b : ℚ),
        (gemmPerform true z a x y b).1 = (gemmPerform false z a x y b).1) := by
  constructor
  · intro i t z a x y b g h
    constructor
    · simp only [localInplaceGemm, toList_ofList, h]
      rfl
    · exact gemmMakeNode_ok_shape5 true z a x y b g h
  · intro z x y a b
    rfl

/-- Claim C9 witness: a concrete `gemm_no_inplace` node is rewritten to the
inplace variant on the same inputs. -/
theorem claimC9_witness :
    localInplaceGemm (.node 20 (.gemm false)
        (VList.ofList [varZ, scalA, varX, varY, scalB]) tyMat)
      = .ok (some [.node 0 (.gemm true)
          (VList.ofList [varZ, scalA, varX, varY, scalB]) varZ.ty]) :=
  (claimC9.1 20 tyMat varZ scalA varX varY scalB
    (.node 0 (.gemm true) (VList.ofList [varZ, scalA, varX, varY, scalB]) varZ.ty)
    rfl).1

/-- Claim C10: the non-inplace `Gemm.perform` copies `z` before accumulating,
so the caller's input buffer is unchanged by the call. -/
theorem claimC10 (z x y : Mat) (a b : ℚ) :
    (gemmPerform false z a x y b).2 = z := rfl

/-- Claim C3 counterexample: `Gemm.make_node` on the non-inplace variant
accepts `z` aliased to `x` (here literally the same variable) even though
their view-root sets intersect — the aliasing check only runs for the
inplace variant. -/
theorem claimC3_cex :
    gemmMakeNode false [varZ, scalA, varZ, varY, scalB]
        = .ok (.node 0 (.gemm false)
            (VList.ofList [varZ, scalA, varZ, varY, scalB]) tyMat) ∧
    hasCommon (viewRoots varZ) (viewRoots varZ) = true :=
  ⟨rfl, rfl⟩

set_option maxHeartbeats 1600000 in
/-- Claim C3 (amended): for the inplace variant, `Gemm.make_node` raises
`InconsistencyError` exactly when the view roots of `z` intersect those of
`x` or those of `y`; the non-inplace variant performs no such check. -/
theorem claimC3 (z a x y b : Var)
    (hall : [z, a, x, y, b].all (fun i => i.ty.isTensor) = true) :
    gemmMakeNode true [z, a, x, y, b] = .error .inconsistency ↔
      (hasCommon (viewRoots z) (viewRoots x) = true
        ∨ hasCommon (viewRoots z) (viewRoots y) = true) := by
  rw [gemmMakeNode]
  rw [if_neg (not_not_intro hall)]
  by_cases hzx : hasCommon (viewRoots z) (viewRoots x) = true
  · rw [if_pos ⟨rfl, hzx⟩]
    simp [hzx]
  · rw [if_neg (fun hc => hzx hc.2)]
    by_cases hzy : hasCommon (viewRoots z) (viewRoots y) = true
    · rw [if_pos ⟨rfl, hzy⟩]
      simp [hzy]
    · rw [if_neg (fun hc => hzy hc.2)]
      constructor
      · intro h
        exfalso
        repeat' (split at h)
        all_goals simp at h
      · intro hor
        rcases hor with h | h
        · exact absurd h hzx
        · exact absurd h hzy

/-- Claim C3 witness: the inplace variant refuses `z` aliased to `x`. -/
theorem claimC3_witness :
    gemmMakeNode true [varZ, scalA, varZ, varY, scalB] = .error .inconsistency :=
  (claimC3 varZ scalA varZ varY scalB rfl).mpr (Or.inl rfl)

/-- Claim C4 counterexample: a float64 rank-0 subexpression is appended by
`_gemm_canonicalize` as a bare pre-scaled variable (`scaled(r)`), not as an
opaque `(scale, term)` pair as the claim states. -/
theorem claimC4_cex :
    canonV fgC1 scal0 (.num 1) 0 = [.bare scal0] ∧
    (Item.bare scal0 ≠ .pair (.num 1) scal0) := by
  refine ⟨rfl, ?_⟩
  intro hcontra
  simp at hcontra

/-- Claim C4 (amended): on a float/complex rank-1/2 tensor within the client
bound, `_gemm_canonicalize` rewrites `sub` with scales `(+s, -s)`, `add`
with the same scale on every child, `neg` with the negated scale, and a
`mul` with exactly one matrix (resp. vector) factor by folding the scalar
factors into the scale and recursing on that factor.  A non-tensor
subexpression contributes nothing; a tensor that is not float/complex of
rank 1/2 is appended as a bare pre-scaled variable `scaled(r)` (not as a
`(scale, term)` pair); a subexpression over the client bound, or whose
owner is none of the four ops, is appended as an opaque `(scale, r)` pair. -/
theorem claimC4 (fg : FGraph) (scale : Scale) (mc : Nat) :
    (∀ (i : Nat) (a b : Var) (r : VList) (t : Ty),
        t.isTensor = true → (t.ndim = 1 ∨ t.ndim = 2) →
        isFloatComplexDtype t.dtype = true →
        ¬ (mc ≠ 0 ∧ fg.clients (.node i .sub (.cons a (.cons b r)) t) > mc) →
        canonV fg (.node i .sub (.cons a (.cons b r)) t) scale mc
          = canonV fg a scale 1 ++ canonV fg b scale.negS 1) ∧
    (∀ (i : Nat) (l : VList) (t : Ty),
        t.isTensor = true → (t.ndim = 1 ∨ t.ndim = 2) →
        isFloatComplexDtype t.dtype = true →
        ¬ (mc ≠ 0 ∧ fg.clients (.node i .add l t) > mc) →
        canonV fg (.node i .add l t) scale mc
          = l.toList.flatMap (fun c => canonV fg c scale 1)) ∧
    (∀ (i : Nat) (x : Var) (r : VList) (t : Ty),
        t.isTensor = true → (t.ndim = 1 ∨ t.ndim = 2) →
        isFloatComplexDtype t.dtype = true →
        ¬ (mc ≠ 0 ∧ fg.clients (.node i .neg (.cons x r) t) > mc) →
        canonV fg (.node i .neg (.cons x r) t) scale mc
          = canonV fg x scale.negS 1) ∧
    (∀ (i : Nat) (l : VList) (t : Ty) (ss : List Var) (m : Var),
        t.isTensor = true → (t.ndim = 1 ∨ t.ndim = 2) →
        isFloatComplexDtype t.dtype = true →
        ¬ (mc ≠ 0 ∧ fg.clients (.node i .mul l t) > mc) →
        classifyMulInputs l = some (ss, [], [m]) →
        canonV fg (.node i .mul l t) scale mc
          = canonV fg m (mulFoldScale scale ss) 1) ∧
    (∀ (i : Nat) (l : VList) (t : Ty) (ss : List Var) (v : Var),
        t.isTensor = true → (t.ndim = 1 ∨ t.ndim = 2) →
        isFloatComplexDtype t.dtype = true →
        ¬ (mc ≠ 0 ∧ fg.clients (.node i .mul l t) > mc) →
        classifyMulInputs l = some (ss, [v], []) →
        canonV fg (.node i .mul l t) scale mc
          = canonV fg v (mulFoldScale scale ss) 1) ∧
    (∀ r : Var, r.ty.isTensor = false → canonV fg r scale mc = []) ∧
    (∀ r : Var, r.ty.isTensor = true →
        ¬ ((r.ty.ndim = 1 ∨ r.ty.ndim = 2) ∧ isFloatComplexDtype r.ty.dtype = true) →
        canonV fg r scale mc = [.bare (scaled scale r)]) ∧
    (∀ r : Var, r.ty.isTensor = true → (r.ty.ndim = 1 ∨ r.ty.ndim = 2) →
        isFloatComplexDtype r.ty.dtype = true → mc ≠ 0 → fg.clients r > mc →
        canonV fg r scale mc = [.pair scale r]) ∧
    (∀ r : Var, r.ty.isTensor = true → (r.ty.ndim = 1 ∨ r.ty.ndim = 2) →
        isFloatComplexDtype r.ty.dtype = true →
        ¬ (mc ≠ 0 ∧ fg.clients r > mc) → r.ownerIsArith = false →
        canonV fg r scale mc = [.pair scale r]) := by
  refine ⟨?_, ?_, ?_, ?_, ?_, ?_, ?_, ?_, ?_⟩
  · intro i a b r t hT hnd hdt hcli
    rw [canonV]
    simp only [Var.ty]
    rw [if_neg (not_not_intro hT), if_neg (not_not_intro ⟨hnd, hdt⟩), if_neg hcli]
  · intro i l t hT hnd hdt hcli
    rw [canonV]
    simp only [Var.ty]
    rw [if_neg (not_not_intro hT), if_neg (not_not_intro ⟨hnd, hdt⟩), if_neg hcli]
    exact canonList_eq_flatMap fg scale l
  · intro i x r t hT hnd hdt hcli
    rw [canonV]
    simp only [Var.ty]
    rw [if_neg (not_not_intro hT), if_neg (not_not_intro ⟨hnd, hdt⟩), if_neg hcli]
  · intro i l t ss m hT hnd hdt hcli hcl
    rw [canonV]
    simp only [Var.ty]
    rw [if_neg (not_not_intro hT), if_neg (not_not_intro ⟨hnd, hdt⟩), if_neg hcli]
    simp only [hcl, List.length_singleton, List.length_nil]
    norm_num
    exact classifyFirst_matrix fg (mulFoldScale scale ss) l ss [] [m] hcl m [] rfl
  · intro i l t ss v hT hnd hdt hcli hcl
    rw [canonV]
    simp only [Var.ty]
    rw [if_neg (not_not_intro hT), if_neg (not_not_intro ⟨hnd, hdt⟩), if_neg hcli]
    simp only [hcl, List.length_singleton, List.length_nil]
    norm_num
    exact classifyFirst_vector fg (mulFoldScale scale ss) l ss [v] [] hcl v [] rfl
  · intro r hT
    rw [canonV.eq_def, if_pos (by simp [hT])]
  · intro r hT hbad
    rw [canonV.eq_def, if_neg (not_not_intro hT), if_pos hbad]
  · intro r hT hnd hdt hmc hcl
    rw [canonV.eq_def, if_neg (not_not_intro hT), if_neg (not_not_intro ⟨hnd, hdt⟩),
      if_pos ⟨hmc, hcl⟩]
  · intro r hT hnd hdt hcli harith
    rcases r with ⟨i, t⟩ | ⟨q, t⟩ | ⟨i, op, l, t⟩
    · simp only [Var.ty] at hT hnd hdt
      rw [canonV]
      all_goals intros
      all_goals simp_all [Var.ty]
    · simp only [Var.ty] at hT hnd hdt
      rw [canonV]
      all_goals intros
      all_goals simp_all [Var.ty]
    · simp only [Var.ty] at hT hnd hdt
      cases op with
      | add => exact Bool.noConfusion harith
      | sub => exact Bool.noConfusion harith
      | neg => exact Bool.noConfusion harith
      | mul => exact Bool.noConfusion harith
      | dot22 =>
          rw [canonV]
          all_goals intros
          all_goals simp_all [Var.ty]
      | gemm ip =>
          rw [canonV]
          all_goals intros
          all_goals simp_all [Var.ty]
      | dimshuffle ord =>
          rw [canonV]
          all_goals intros
          all_goals simp_all [Var.ty]
      | cast d =>
          rw [canonV]
          all_goals intros
          all_goals simp_all [Var.ty]
      | other tag =>
          rw [canonV]
          all_goals intros
          all_goals simp_all [Var.ty]

/-- Claim C4 witness: the `add` rule applied to the concrete C1 root. -/
theorem claimC4_witness :
    canonV fgC1 (.node 10 .add (.cons mulBZ (.cons mulADot .nil)) tyMat) (.num 1) 0
      = (VList.cons mulBZ (VList.cons mulADot VList.nil)).toList.flatMap
          (fun c => canonV fgC1 c (.num 1) 1) :=
  (claimC4 fgC1 (.num 1) 0).2.1 10 (VList.cons mulBZ (VList.cons mulADot VList.nil))
    tyMat rfl (Or.inr rfl) rfl (by decide)

/-- Claim C5: a candidate produced by `_gemm_from_node2` is accepted only
when its replacement output is in the same type class as the original
output, so any returned replacement has the original's dtype and rank. -/
theorem claimC5 (fg : FGraph) (root : Var) (outs : List Var) (old : Var)
    (h : gemmFromNode2 fg root = .ok (some (outs, old))) :
    ∃ v rest, outs = v :: rest ∧ (Var.ty v).dtype = root.ty.dtype
      ∧ (Var.ty v).ndim = root.ty.ndim := by
  rw [gemmFromNode2] at h
  split at h
  · exact Except.noConfusion h
  · split at h
    · rw [show (pure : Option (List Var × Var) → Except MkErr (Option (List Var × Var)))
            = Except.ok from rfl] at h
      cases hres : gemmFromFactoredList
          (factorCanonicalized (canonV fg root (.num 1) 0)) with
      | error e =>
          rw [hres] at h
          exact Except.noConfusion (show Except.error e
            = Except.ok (some (outs, old)) from h)
      | ok rv =>
          rw [hres] at h
          simp only [bind, Except.bind] at h
          split at h
          · rename_i v2 vs2 old3
            split at h
            · rename_i hcond
              injection h with h2
              injection h2 with h3
              have h5 : v2 :: vs2 = outs := congrArg Prod.fst h3
              have h6 := inSameClass_dtype_ndim _ _ hcond
              exact ⟨v2, vs2, h5.symm, h6.1, h6.2⟩
            · exact Option.noConfusion (Except.ok.inj h)
          · exact Option.noConfusion (Except.ok.inj h)
    · exact Option.noConfusion (Except.ok.inj h)

/-- Claim C5 witness: the accepted C1 replacement has the root's dtype and
rank. -/
theorem claimC5_witness :
    ∃ v rest, ([gemmC1] : List Var) = v :: rest
      ∧ (Var.ty v).dtype = rootC1.ty.dtype ∧ (Var.ty v).ndim = rootC1.ty.ndim :=
  claimC5 fgC1 rootC1 [gemmC1] dotXY rfl

/-- Claim C6: one full pass of the driver loop handles every per-node
`InconsistencyError` (from candidate building or from the commit) and every
`ReplacementDidNotRemoveError` locally: provided candidate building raises
nothing but `InconsistencyError`, the pass always returns normally and its
counters tally each caught failure and each successful replacement. -/
theorem claimC6 :
    ∀ (evts : List NodeEvt) (st : GOState),
      (∀ e ∈ evts, buildCaught e = true) →
      ∃ st', gemmPassAux st evts = .ok st'
        ∧ st'.nbInconsistencyMake
            = st.nbInconsistencyMake + evts.countP isBuildIncons
        ∧ st'.nbInconsistencyReplace
            = st.nbInconsistencyReplace + evts.countP isReplIncons
        ∧ st'.nbReplacementDidntRemove
            = st.nbReplacementDidntRemove + evts.countP isReplDidnt
        ∧ st'.nbReplacement = st.nbReplacement + evts.countP isReplSuccess := by
  intro evts
  induction evts with
  | nil =>
      intro st _
      exact ⟨st, rfl, by simp [List.countP_nil], by simp [List.countP_nil],
        by simp [List.countP_nil], by simp [List.countP_nil]⟩
  | cons e rest ih =>
      intro st h
      have hcur : buildCaught e = true := h e (List.mem_cons_self e rest)
      have hrest : ∀ e' ∈ rest, buildCaught e' = true :=
        fun e' he' => h e' (List.mem_cons_of_mem e he')
      rcases e with ⟨bo, ro⟩
      match bo, ro with
      | .error .inconsistency, ro =>
          obtain ⟨st', hpass, h1, h2, h3, h4⟩ :=
            ih { st with nbInconsistencyMake := st.nbInconsistencyMake + 1 } hrest
          refine ⟨st', ?_, ?_, ?_, ?_, ?_⟩
          · simpa [gemmPassAux, gemmStep] using hpass
          · simp only [List.countP_cons] at *
            simp [isBuildIncons] at *
            omega
          · simp only [List.countP_cons] at *
            simp [isReplIncons] at *
            omega
          · simp only [List.countP_cons] at *
            simp [isReplDidnt] at *
            omega
          · simp only [List.countP_cons] at *
            simp [isReplSuccess] at *
            omega
      | .error .notImplemented, ro => simp [buildCaught] at hcur
      | .error .typeErr, ro => simp [buildCaught] at hcur
      | .error .assertionError, ro => simp [buildCaught] at hcur
      | .ok none, ro =>
          obtain ⟨st', hpass, h1, h2, h3, h4⟩ := ih st hrest
          refine ⟨st', ?_, ?_, ?_, ?_, ?_⟩
          · simpa [gemmPassAux, gemmStep] using hpass
          · simp only [List.countP_cons] at *
            simp [isBuildIncons] at *
            omega
          · simp only [List.countP_cons] at *
            simp [isReplIncons] at *
            omega
          · simp only [List.countP_cons] at *
            simp [isReplDidnt] at *
            omega
          · simp only [List.countP_cons] at *
            simp [isReplSuccess] at *
            omega
      | .ok (some u), .ok uu =>
          obtain ⟨st', hpass, h1, h2, h3, h4⟩ :=
            ih { st with nbReplacement := st.nbReplacement + 1 } hrest
          refine ⟨st', ?_, ?_, ?_, ?_, ?_⟩
          · simpa [gemmPassAux, gemmStep] using hpass
          · simp only [List.countP_cons] at *
            simp [isBuildIncons] at *
            omega
          · simp only [List.countP_cons] at *
            simp [isReplIncons] at *
            omega
          · simp only [List.countP_cons] at *
            simp [isReplDidnt] at *
            omega
          · simp only [List.countP_cons] at *
            simp [isReplSuccess] at *
            omega
      | .ok (some u), .error .inconsistency =>
          obtain ⟨st', hpass, h1, h2, h3, h4⟩ :=
            ih { st with nbInconsistencyReplace := st.nbInconsistencyReplace + 1 } hrest
          refine ⟨st', ?_, ?_, ?_, ?_, ?_⟩
          · simpa [gemmPassAux, gemmStep] using hpass
          · simp only [List.countP_cons] at *
            simp [isBuildIncons] at *
            omega
          · simp only [List.countP_cons] at *
            simp [isReplIncons] at *
            omega
          · simp only [List.countP_cons] at *
            simp [isReplDidnt] at *
            omega
          · simp only [List.countP_cons] at *
            simp [isReplSuccess] at *
            omega
      | .ok (some u), .error .didNotRemove =>
          obtain ⟨st', hpass, h1, h2, h3, h4⟩ :=
            ih { st with nbReplacementDidntRemove := st.nbReplacementDidntRemove + 1,
                         warned := true } hrest
          refine ⟨st', ?_, ?_, ?_, ?_, ?_⟩
          · simpa [gemmPassAux, gemmStep] using hpass
          · simp only [List.countP_cons] at *
            simp [isBuildIncons] at *
            omega
          · simp only [List.countP_cons] at *
            simp [isReplIncons] at *
            omega
          · simp only [List.countP_cons] at *
            simp [isReplDidnt] at *
            omega
          · simp only [List.countP_cons] at *
            simp [isReplSuccess] at *
            omega

/-- Claim C6 witness: a concrete event list with every caught failure kind. -/
theorem claimC6_witness :
    ∃ st', gemmPassAux default evtsC6 = .ok st'
      ∧ st'.nbInconsistencyMake
          = GOState.nbInconsistencyMake default + evtsC6.countP isBuildIncons
      ∧ st'.nbInconsistencyReplace
          = GOState.nbInconsistencyReplace default + evtsC6.countP isReplIncons
      ∧ st'.nbReplacementDidntRemove
          = GOState.nbReplacementDidntRemove default + evtsC6.countP isReplDidnt
      ∧ st'.nbReplacement = GOState.nbReplacement default + evtsC6.countP isReplSuccess :=
  claimC6 evtsC6 default (by decide)

/-- Claim C7: the `while did_something` loop of `GemmOptimizer.apply`
continues with another full pass exactly when the previous pass performed at
least one successful replacement, and whenever it terminates normally, the
final pass performed zero replacements. -/
theorem claimC7 :
    (∀ (evts : Nat → List NodeEvt) (fuel k : Nat) (st st' : GOState),
        gemmPassAux st (evts k) = .ok st' →
        st.nbReplacement < st'.nbReplacement →
        gemmApply evts (fuel + 1) k st = gemmApply evts fuel (k + 1) st') ∧
    (∀ (evts : Nat → List NodeEvt) (fuel k : Nat) (st st' : GOState),
        gemmPassAux st (evts k) = .ok st' →
        st'.nbReplacement = st.nbReplacement →
        gemmApply evts (fuel + 1) k st = some (.ok st')) ∧
    (∀ (evts : Nat → List NodeEvt) (fuel k : Nat) (st st' : GOState),
        gemmApply evts fuel k st = some (.ok st') →
        ∃ k0 st0, gemmPassAux st0 (evts k0) = .ok st'
          ∧ st'.nbReplacement = st0.nbReplacement) := by
  refine ⟨?_, ?_, ?_⟩
  · intro evts fuel k st st' hpass hlt
    simp only [gemmApply, hpass]
    rw [if_pos hlt]
  · intro evts fuel k st st' hpass heq
    simp only [gemmApply, hpass]
    rw [if_neg (by omega)]
  · intro evts fuel
    induction fuel with
    | zero => intro k st st' h; exact Option.noConfusion h
    | succ n ih =>
        intro k st st' h
        simp only [gemmApply] at h
        split at h
        · rename_i e heq
          injection h with h2
          exact Except.noConfusion h2
        · rename_i st1 heq
          split at h
          · exact ih (k + 1) st1 st' h
          · rename_i hnlt
            injection h with h2
            injection h2 with h3
            subst h3
            have hmono := gemmPassAux_mono (evts k) st st1 heq
            exact ⟨k, st, heq, by omega⟩

/-- Claim C7 witness: a pass with zero replacements terminates the loop
immediately with the pass result. -/
theorem claimC7_witness :
    gemmApply (fun _ => []) 1 0 default = some (.ok default) :=
  claimC7.2.1 (fun _ => []) 0 0 default default rfl rfl
